import Mathlib

set_option maxRecDepth 20000

/-!
Shallow embedding of `src/models/qmodules.py`: a learnable mixed-precision
quantization subsystem (per-tensor quantizer with trainable bitwidth logit
and scale, a stochastic rounding estimator with a custom surrogate gradient,
a BOPs cost model, and an activation-offset calibration search).

Value-level semantics are modelled over ℚ (tensor arithmetic, calibration)
and ℝ (the sigmoid-based bit-logit mapper).  Fallible code paths
(assertions, `raise NotImplementedError`, PyTorch runtime errors, the
calibration error exit) are modelled with `Option`, `none` meaning the
program aborts at that point.
-/

/-- `torch.clamp(x, lo, hi)` on scalars. -/
def clamp (x lo hi : ℚ) : ℚ := min (max x lo) hi

/-- Value-level (forward) semantics of `hard_quant` (qmodules.py lines
113–116): the straight-through estimator `(x.round() - x).detach() + x`
evaluates to `round x`. -/
def hard_quant (x : ℚ) : ℚ := ((round x : ℤ) : ℚ)

/-- The branch condition of `Quantizer._quant` (qmodules.py line 197):
`if is_training and self._bitwidth.requires_grad`. -/
def use_stochastic (isTraining requiresGrad : Bool) : Bool :=
  isTraining && requiresGrad

/-- Value-level semantics of `Quantizer._quant` (qmodules.py lines 174–203)
for a scalar tensor element `x`.

`bitwidthVal` is the value of `self.bitwidth()` and `alphaVal` the value of
`self.alpha()` (softplus of the scale logit); `offset0` is the stored
`self.offset` of an asymmetric quantizer; `noise` is the normal sample drawn
inside `noise_quant` for the stochastic branch.  The code applies
`hard_quant` to the bitwidth, so only `round bitwidthVal` enters the
arithmetic. -/
def _quant (symm : Bool) (offset0 bitwidthVal alphaVal : ℚ)
    (requiresGrad isTraining : Bool) (noise x : ℚ) : ℚ :=
  let b : ℤ := round bitwidthVal
  let offset : ℚ := if symm then alphaVal else offset0
  let alpha : ℚ := if symm then (2 - (2 : ℚ) ^ (-b + 1)) * alphaVal else alphaVal
  let n_lv : ℚ := (2 : ℚ) ^ b - 1
  let n_lv_inv : ℚ := n_lv⁻¹
  let step : ℚ := alpha * n_lv_inv
  let xs : ℚ := x + offset
  let y : ℚ :=
    if use_stochastic isTraining requiresGrad then
      clamp ((xs + hard_quant (noise / 2) * step) / alpha) 0 1 * alpha
    else
      hard_quant (clamp (xs / alpha) 0 1 * n_lv) * step
  y - offset

/-- Logistic sigmoid, the mathematical function computed by
`torch.sigmoid`. -/
noncomputable def sigmoid (x : ℝ) : ℝ := 1 / (1 + Real.exp (-x))

/-- `_logit2bit` from `Quantizer.bitwidth` (qmodules.py lines 156–163):
`2.0 + torch.sigmoid(logit) * 6.5`. -/
noncomputable def logit2bit (logit : ℝ) : ℝ := 2.0 + sigmoid logit * 6.5

/-- `Quantizer.bitwidth` (qmodules.py lines 155–168): the mapped logit when
the bitwidth logit still requires gradient, its rounding otherwise. -/
noncomputable def quantizer_bitwidth (requiresGrad : Bool) (logit : ℝ) : ℝ :=
  if requiresGrad then logit2bit logit else ((round (logit2bit logit) : ℤ) : ℝ)

/-- The device a tensor lives on (`x.is_cuda` distinguishes the two code
paths of `noise_quant.forward`). -/
inductive Device
  | cpu
  | cuda
deriving DecidableEq

/-- The context object of the `noise_quant` autograd `Function`: the forward
pass stores the seed via `ctx.save_for_backward(rseed)`. -/
structure NQContext where
  rseed : ℚ
deriving DecidableEq

/-- `noise_quant.forward` (qmodules.py lines 88–99).  `randn1` is the
semantics of a seeded `torch.randn(1, device=d)[0]` draw: each device has
its own generator, so the sample depends on both the device and the seed.
The forward pass draws on the device of `x`, adds the single dither value
`round(sample / 2) * step` to every element of `x` (tensor-broadcast of a
scalar), and saves the seed for the backward pass. -/
def nq_forward (randn1 : Device → ℚ → ℚ) (dev : Device) (rseed : ℚ)
    (x : List ℚ) (step : ℚ) : List ℚ × NQContext :=
  (x.map (fun xi => xi + ((round (randn1 dev rseed / 2) : ℤ) : ℚ) * step), ⟨rseed⟩)

/-- `noise_quant.backward` (qmodules.py lines 102–107): re-seed with the
saved seed, redraw with `torch.randn(1)` — which always samples on the
default CPU device, whatever device the forward tensor lived on — and
return `(grad_output, round(sample / 2))`. -/
def nq_backward (randn1 : Device → ℚ → ℚ) (ctx : NQContext)
    (grad_output : List ℚ) : List ℚ × ℚ :=
  (grad_output, ((round (randn1 Device.cpu ctx.rseed / 2) : ℤ) : ℚ))

/-- A generator family whose CPU and CUDA streams disagree (as PyTorch's
Mersenne-Twister CPU generator and Philox CUDA generator do): used to
exhibit the device mismatch between `noise_quant.forward` and
`noise_quant.backward`. -/
def rng_split : Device → ℚ → ℚ :=
  fun d _ => match d with
    | Device.cpu => 0
    | Device.cuda => 2

/-- A constant generator family, used as a concrete instance. -/
def rng_const : Device → ℚ → ℚ := fun _ _ => 3

/-- `str.lower()` of an activation-function tag, as a character list. -/
def lowered (s : String) : List Char := s.toList.map Char.toLower

/-- Whether `pat` is a prefix of `cs` (helper for Python's substring
containment test). -/
def chStarts : List Char → List Char → Bool
  | [], _ => true
  | _ :: _, [] => false
  | p :: ps, c :: cs => p = c && chStarts ps cs

/-- Python's `pat in s` on character lists: `pat` occurs contiguously in
`cs`. -/
def chContains (pat : List Char) : List Char → Bool
  | [] => pat.isEmpty
  | c :: cs => chStarts pat (c :: cs) || chContains pat cs

/-- The characters of the pattern `'relu'`. -/
def relu_chars : List Char := "relu".toList

/-- The characters of the pattern `'swish'`. -/
def swish_chars : List Char := "swish".toList

/-- The offset chosen by `Quantizer.__init__` for an asymmetric quantizer
(qmodules.py lines 128–142): lowercase the tag; a tag containing `relu`
gets offset `0`; otherwise a tag containing `swish` gets `0.3125` when the
first two characters contain `h` (h-swish) and `0.2784645427610738`
otherwise; any other tag raises `NotImplementedError` (`none`). -/
def act_offset (act_func : String) : Option ℚ :=
  let a : List Char := lowered act_func
  if chContains relu_chars a then some 0
  else if chContains swish_chars a then
    if 'h' ∈ a.take 2 then some 0.3125
    else some 0.2784645427610738
  else none

/-- The `act_func` tag `Q_Conv.__init__` passes to its `Q_Conv2d`
(qmodules.py line 15): `'relu1' if c1 == 3 else 'swish'` — always a tag,
never `None`. -/
def q_conv_act_func (c1 : ℕ) : Option String :=
  some (if c1 = 3 then "relu1" else "swish")

/-- The `symm` flag computed by `Q_Conv2d.__init__` (qmodules.py lines
58–61): symmetric exactly when no `act_func` tag was supplied. -/
def q_conv2d_symm (act_func : Option String) : Bool :=
  act_func.isNone

/-- Maximum of a list of rationals (`tensor.max()`; `0` for the empty
tensor, on which PyTorch would error). -/
def listMax : List ℚ → ℚ
  | [] => 0
  | x :: xs => xs.foldl max x

/-- Maximum magnitude (largest absolute value) of a list — stated from the
words of the claim about `initialize_Q`, for comparison with the code's
`weight.data.max()`. -/
def listMaxAbs (l : List ℚ) : ℚ := listMax (l.map (fun a => |a|))

/-- Minimum of a nonempty list (`tensor.min().item()`); `none` models the
PyTorch runtime error on an empty tensor. -/
def listMin : List ℚ → Option ℚ
  | [] => none
  | x :: xs => some (xs.foldl min x)

/-- Total minimum of a list (`0` when empty): used only by the spec-side
mean-absolute-error definition. -/
def listMinD : List ℚ → ℚ
  | [] => 0
  | x :: xs => xs.foldl min x

/-- The state of one quantized operator that `initialize_Q` touches: its
weight tensor, the weight quantizer's scale logit `_alpha`, and the
`requires_grad` flags of the two bitwidth logits. -/
structure QMod where
  weight : List ℚ
  w_alpha : ℚ
  w_bw_requires_grad : Bool
  a_bw_requires_grad : Bool
deriving DecidableEq

/-- The `mode` argument of `initialize_Q`. -/
inductive QInitMode
  | first
  | finetune
deriving DecidableEq

/-- The per-module update of `initialize_Q` (qmodules.py lines 214–220):
mode `first` overwrites `w_quant._alpha.data` with `m.weight.data.max()`;
mode `finetune` clears `requires_grad` on both bitwidth logits. -/
def init_Q_module (mode : QInitMode) (m : QMod) : QMod :=
  match mode with
  | QInitMode.first => { m with w_alpha := listMax m.weight }
  | QInitMode.finetune =>
      { m with w_bw_requires_grad := false, a_bw_requires_grad := false }

/-- `initialize_Q` (qmodules.py lines 209–220) over the list of quantized
modules of a model.  Mode `first` asserts a sample input is present (and
runs the calibration pass `sample_activation_size`, modelled separately
below) before seeding each weight quantizer's scale; mode `finetune` needs
no sample input.  `none` models the assertion failure. -/
def init_Q (mode : QInitMode) (ms : List QMod) (sampleInput : Option Unit) :
    Option (List QMod) :=
  match mode, sampleInput with
  | QInitMode.first, none => none
  | QInitMode.first, some _ => some (ms.map (init_Q_module QInitMode.first))
  | QInitMode.finetune, _ => some (ms.map (init_Q_module QInitMode.finetune))

/-- `bops` (qmodules.py lines 228–236):
`(c_out) * (c_in * k * k) * (w_out * h_out) * a_bit * w_bit / 2 ** 30`. -/
def bops (k c_in c_out h_out w_out w_bit a_bit : ℚ) : ℚ :=
  c_out * (c_in * k * k) * (w_out * h_out) * a_bit * w_bit / 2 ^ 30

/-- One quantized operator as seen by `model_bops`: a `Q_Conv2d` with its
shape metadata, or a `Q_Linear` with its feature counts; each carries the
current effective bitwidths of its weight and activation quantizers. -/
inductive QOp
  | conv (k c_in c_out h_out w_out w_bit a_bit : ℚ)
  | linear (in_features out_features w_bit a_bit : ℚ)
deriving DecidableEq

/-- The per-module cost inside the `model_bops` loop (qmodules.py lines
243–262): a conv uses its shape metadata directly; a linear uses `k = 1`,
`c_in = in_features`, `c_out = 1`, `h_out = 1`, `w_out = out_features`. -/
def qop_bops : QOp → ℚ
  | QOp.conv k c_in c_out h_out w_out w_bit a_bit =>
      bops k c_in c_out h_out w_out w_bit a_bit
  | QOp.linear in_features out_features w_bit a_bit =>
      bops 1 in_features 1 1 out_features w_bit a_bit

/-- `model_bops` (qmodules.py lines 239–265): accumulate the per-operator
costs over the model's quantized operators, starting from `0`. -/
def model_bops (ops : List QOp) : ℚ :=
  ops.foldl (fun acc m => acc + qop_bops m) 0

/-- One step of the loop of `optimal_i` (qmodules.py lines 290–302):
track the running `(min_err, min_err_i)` pair; the strict comparison
`min_err > err` keeps the first (smallest) `i` on ties. -/
def opt_i_step (target unit : ℚ) (s : ℚ × Option ℕ) (i : ℕ) : ℚ × Option ℕ :=
  let err := |target - unit * (i : ℚ)|
  if s.1 > err then (err, some i) else s

/-- `optimal_i` (qmodules.py lines 290–302): search `i ∈ {0,…,4}` for the
multiple `unit * i` nearest to `target`, starting from the sentinel error
`100`; when no candidate error beats the sentinel the function prints a
diagnostic and calls `exit()` (`none`). -/
def optimal_i (target unit : ℚ) : Option ℕ :=
  (([0, 1, 2, 3, 4] : List ℕ).foldl (opt_i_step target unit) (100, none)).2

/-- One group of `group_err` (qmodules.py lines 304–323): the slice of
`arr` belonging to group `i` of `g` equal-size groups (`elem_per_group =
len // g`, with the remainder folded into the last group), paired with the
group's representative target `offset * optimal_i(slice.min(), offset)`.
`none` models the empty-slice `min()` runtime error and the `optimal_i`
error exit. -/
def group_result (arr : List ℚ) (offset : ℚ) (g i : ℕ) :
    Option (List ℚ × ℚ) :=
  let epg := arr.length / g
  let i0 := i * epg
  let i1 := if i = g - 1 then arr.length else (i + 1) * epg
  let grp := (arr.drop i0).take (i1 - i0)
  match listMin grp with
  | none => none
  | some mn =>
      match optimal_i mn offset with
      | none => none
      | some j => some (grp, offset * (j : ℚ))

/-- `group_err` (qmodules.py lines 304–323): the mean absolute error
between each channel minimum and its group's target, together with the
per-channel offset array `arr_off`.  `g = 0` models the Python
`ZeroDivisionError` of `arr_len // 0`. -/
def group_err (arr : List ℚ) (offset : ℚ) (g : ℕ) : Option (ℚ × List ℚ) :=
  if g = 0 then none
  else
    match (List.range g).mapM (group_result arr offset g) with
    | none => none
    | some rs =>
        let errs := (rs.map (fun p => p.1.map (fun c => |c - p.2|))).flatten
        let offs := (rs.map (fun p => p.1.map (fun _ => p.2))).flatten
        some (errs.sum / (arr.length : ℚ), offs)

/-- One step of the group-count search of `forward_off_hook` (qmodules.py
lines 334–344): fold the running `(min_err, min_err_g)` over `g ∈ {1,…,4}`;
the strict comparison `min_err > err` keeps the first (smallest) `g` on
ties; a failing `group_err` aborts the program. -/
def search_step (arr : List ℚ) (unit : ℚ) (s : Option (ℚ × ℕ)) (g : ℕ) :
    Option (ℚ × ℕ) :=
  match s with
  | none => none
  | some (me, mg) =>
      match group_err arr unit g with
      | none => none
      | some (err, _) => if me > err then some (err, g) else some (me, mg)

/-- The group-count search of `forward_off_hook` (qmodules.py lines
334–344), starting from the sentinel `(100, 0)`. -/
def off_search (arr : List ℚ) (unit : ℚ) : Option (ℚ × ℕ) :=
  ([1, 2, 3, 4] : List ℕ).foldl (search_step arr unit) (some (100, 0))

/-- The group count the calibration search settles on (`min_err_g`), or
`none` when the search aborts. -/
def best_g (arr : List ℚ) (unit : ℚ) : Option ℕ :=
  (off_search arr unit).map Prod.snd

/-- Stated from the claim's words: the multiple `unit * i`, `i ∈ {0,…,4}`,
nearest to `target` (ties to the smaller `i`), with no error cap. -/
def spec_nearest_multiple (target unit : ℚ) : ℚ :=
  ((List.range 5).foldl
    (fun (s : ℚ × ℚ) i =>
      let err := |target - unit * (i : ℚ)|
      if err < s.1 then (err, unit * (i : ℚ)) else s)
    (|target|, 0)).2

/-- Stated from the claim's words: the mean absolute error of grouping the
channel minima `arr` into `g` equal-size groups (remainder folded into the
last group), each group's target being the multiple of `unit` nearest to
the group's minimum. -/
def spec_group_mae (arr : List ℚ) (unit : ℚ) (g : ℕ) : ℚ :=
  if g = 0 then 0
  else
    let epg := arr.length / g
    let segs := (List.range g).map (fun i =>
      let i0 := i * epg
      let i1 := if i = g - 1 then arr.length else (i + 1) * epg
      (arr.drop i0).take (i1 - i0))
    let errs := (segs.map (fun grp =>
      let t := spec_nearest_multiple (listMinD grp) unit
      grp.map (fun c => |c - t|))).flatten
    errs.sum / (arr.length : ℚ)

/-- Concrete quantized module whose weight tensor is entirely negative:
its maximum value and maximum magnitude differ. -/
def c7mod : QMod :=
  { weight := [-3, -1], w_alpha := 0,
    w_bw_requires_grad := true, a_bw_requires_grad := true }

/-- Claim C1: `Quantizer._quant` executes the stochastic (noise-injection)
branch iff `training` is true and the bitwidth logit still requires
gradient; a quantizer whose bitwidth gradient is frozen (finetune mode)
invoked with `training=True` takes the deterministic LSQ branch — its
output ignores both the training flag and the noise draw. -/
theorem quant_branch_selection :
    (∀ t rg : Bool, use_stochastic t rg = true ↔ (t = true ∧ rg = true))
    ∧ use_stochastic true false = false
    ∧ (∀ (symm : Bool) (offset bw al noiseA noiseB x : ℚ) (t : Bool),
        _quant symm offset bw al false t noiseA x
          = _quant symm offset bw al false false noiseB x) := by
  refine ⟨by decide, by decide, ?_⟩
  intro symm offset bw al noiseA noiseB x t
  simp [_quant, use_stochastic]

/-- Claim C4: for every bitwidth logit (including extreme magnitudes) the
mapped effective bitwidth `2.0 + sigmoid(logit) * 6.5` lies in
`[2.0, 8.5]`, and the rounded deployable bitwidth returned when the logit
is frozen lies in `{2,3,4,5,6,7,8}`. -/
theorem bitwidth_range_invariant (L : ℝ) :
    (2 ≤ logit2bit L ∧ logit2bit L ≤ 8.5)
    ∧ round (logit2bit L) ∈ ({2, 3, 4, 5, 6, 7, 8} : Finset ℤ)
    ∧ quantizer_bitwidth false L = ((round (logit2bit L) : ℤ) : ℝ) := by
  have hexp : 0 < Real.exp (-L) := Real.exp_pos _
  have hs0 : 0 < sigmoid L := by
    unfold sigmoid; positivity
  have hs1 : sigmoid L < 1 := by
    unfold sigmoid
    rw [div_lt_one (by linarith)]
    linarith
  have h1 : 2 < logit2bit L := by unfold logit2bit; nlinarith
  have h2 : logit2bit L < 8.5 := by unfold logit2bit; nlinarith
  have hr1 : 2 ≤ round (logit2bit L) := by
    rw [round_eq]
    refine Int.le_floor.mpr ?_
    push_cast
    linarith
  have hr2 : round (logit2bit L) ≤ 8 := by
    rw [round_eq]
    have h9 : logit2bit L + 1 / 2 < ((9 : ℤ) : ℝ) := by push_cast; linarith
    have := Int.floor_lt.mpr h9
    omega
  have hIcc : round (logit2bit L) ∈ Finset.Icc (2 : ℤ) 8 :=
    Finset.mem_Icc.mpr ⟨hr1, hr2⟩
  have hset : Finset.Icc (2 : ℤ) 8 = ({2, 3, 4, 5, 6, 7, 8} : Finset ℤ) := by
    decide
  rw [hset] at hIcc
  exact ⟨⟨le_of_lt h1, le_of_lt h2⟩, hIcc, by simp [quantizer_bitwidth]⟩

/-- Claim C5: an asymmetric quantizer's offset is fixed by the
preceding-activation tag: a tag containing `relu` yields `0`; otherwise a
tag containing `swish` yields `0.3125` when its first two (lowercased)
characters contain `h`, and `0.2784645427610738` otherwise; an
unrecognized tag raises the configuration error at construction. -/
theorem act_offset_by_tag :
    (∀ s : String, chContains relu_chars (lowered s) = true →
        act_offset s = some 0)
    ∧ (∀ s : String, chContains relu_chars (lowered s) = false →
        chContains swish_chars (lowered s) = true →
        ('h' ∈ (lowered s).take 2 → act_offset s = some 0.3125)
        ∧ ('h' ∉ (lowered s).take 2 →
            act_offset s = some 0.2784645427610738))
    ∧ (∀ s : String, chContains relu_chars (lowered s) = false →
        chContains swish_chars (lowered s) = false →
        act_offset s = none)
    ∧ act_offset ("hswish") = some 0.3125
    ∧ act_offset ("swish") = some 0.2784645427610738 := by
  have hrelu : ∀ s : String, chContains relu_chars (lowered s) = true →
      act_offset s = some 0 := by
    intro s h
    simp [act_offset, h]
  have hsw : ∀ s : String, chContains relu_chars (lowered s) = false →
      chContains swish_chars (lowered s) = true →
      ('h' ∈ (lowered s).take 2 → act_offset s = some 0.3125)
      ∧ ('h' ∉ (lowered s).take 2 →
          act_offset s = some 0.2784645427610738) := by
    intro s h1 h2
    constructor <;> intro h3 <;> simp [act_offset, h1, h2, h3]
  refine ⟨hrelu, hsw, ?_, ?_, ?_⟩
  · intro s h1 h2
    simp [act_offset, h1, h2]
  · exact (hsw ("hswish") (by decide) (by decide)).1 (by decide)
  · exact (hsw ("swish") (by decide) (by decide)).2 (by decide)

/-- Witness for C5 at the concrete tags `relu` and `tanh`. -/
theorem act_offset_by_tag_witness :
    chContains relu_chars (lowered ("relu")) = true
    ∧ act_offset ("relu") = some 0
    ∧ chContains relu_chars (lowered ("tanh")) = false
    ∧ chContains swish_chars (lowered ("tanh")) = false
    ∧ act_offset ("tanh") = none :=
  ⟨by decide, act_offset_by_tag.1 ("relu") (by decide), by decide, by decide,
    act_offset_by_tag.2.2.1 ("tanh") (by decide) (by decide)⟩

/-- Claim C6 counterexample: the first op of the network (the `Q_Conv`
with `c1 = 3` consuming the raw 3-channel image) passes the tag `'relu1'`,
so its activation quantizer is constructed asymmetric — contradicting the
claim that exactly that op's activation quantizer is symmetric. -/
theorem q_conv_first_op_not_symmetric :
    q_conv2d_symm (q_conv_act_func 3) = false
    ∧ q_conv_act_func 3 = some ("relu1") := by decide

/-- Claim C6 (amended): `Q_Conv` always passes an activation tag, so its
activation quantizer is always asymmetric — tagged `relu1` when `c1 = 3`
(the first op on raw image input) and `swish` otherwise, the tag fixing
the offset constant; a quantizer is symmetric exactly when constructed
with no tag (the `Q_Conv2d` default, as in the detection head). -/
theorem q_conv_act_tagging :
    (∀ c1 : ℕ, q_conv2d_symm (q_conv_act_func c1) = false)
    ∧ q_conv_act_func 3 = some ("relu1")
    ∧ (∀ c1 : ℕ, c1 ≠ 3 → q_conv_act_func c1 = some ("swish"))
    ∧ q_conv2d_symm none = true
    ∧ act_offset ("relu1") = some 0
    ∧ act_offset ("swish") = some 0.2784645427610738 := by
  have hr : act_offset ("relu1") = some 0 := by
    have h : chContains relu_chars (lowered ("relu1")) = true := by decide
    simp [act_offset, h]
  have hs : act_offset ("swish") = some 0.2784645427610738 := by
    have h1 : chContains relu_chars (lowered ("swish")) = false := by decide
    have h2 : chContains swish_chars (lowered ("swish")) = true := by decide
    have h3 : 'h' ∉ (lowered ("swish")).take 2 := by decide
    simp [act_offset, h1, h2, h3]
  refine ⟨fun c1 => by simp [q_conv2d_symm, q_conv_act_func],
    by decide, ?_, by decide, hr, hs⟩
  intro c1 h
  simp [q_conv_act_func, h]

/-- Witness for C6 (amended) at `c1 = 4`. -/
theorem q_conv_act_tagging_witness :
    (4 : ℕ) ≠ 3 ∧ q_conv_act_func 4 = some ("swish") :=
  ⟨by decide, q_conv_act_tagging.2.2.1 4 (by decide)⟩

/-- Claim C7 counterexample: on the all-negative weight tensor `[-3, -1]`,
mode `first` seeds the scale with `weight.data.max() = -1`, not with the
maximum magnitude `3` the claim states. -/
theorem init_first_seeds_signed_max :
    (init_Q QInitMode.first [c7mod] (some ())).map (fun l => l.map QMod.w_alpha)
      = some [-1]
    ∧ listMaxAbs c7mod.weight = 3
    ∧ ((-1 : ℚ) ≠ 3) := by decide

/-- Claim C7 (amended): `initialize_Q` with mode `first` (which requires a
sample input and runs the calibration pass) seeds each weight quantizer's
scale from the plain maximum value of that operator's weight tensor — not
its maximum magnitude; mode `finetune` instead clears `requires_grad` on
every weight and activation bitwidth logit and needs no sample input. -/
theorem init_Q_modes (ms : List QMod) :
    ((init_Q QInitMode.first ms (some ())).map (fun l => l.map QMod.w_alpha)
        = some (ms.map (fun m => listMax m.weight)))
    ∧ (∀ s : Option Unit,
        (init_Q QInitMode.finetune ms s).map
            (fun l => l.map (fun m => (m.w_bw_requires_grad, m.a_bw_requires_grad)))
          = some (ms.map (fun _ => (false, false))))
    ∧ init_Q QInitMode.first ms none = none
    ∧ (init_Q QInitMode.finetune ms none).isSome = true := by
  refine ⟨?_, ?_, rfl, rfl⟩
  · simp [init_Q, init_Q_module, List.map_map, Function.comp]
  · intro s
    have hmap : ∀ l : List QMod,
        (l.map (init_Q_module QInitMode.finetune)).map
            (fun m => (m.w_bw_requires_grad, m.a_bw_requires_grad))
          = l.map (fun _ => (false, false)) := by
      intro l
      induction l with
      | nil => rfl
      | cons m t ih => simp [init_Q_module, ih]
    cases s <;> exact congrArg some (hmap ms)

/-- Claim C8: the per-operator BOPs cost is
`c_out * c_in * k^2 * h_out * w_out * a_bits * w_bits / 2^30`; a linear
operator is costed with `k = 1`, `h_out = 1`, `c_out` replaced by `1` and
`w_out = out_features`; the concrete convolution of the claim costs
exactly `32*16*9*196*8*4 / 2^30` Gi. -/
theorem bops_cost_formula :
    (∀ k c_in c_out h_out w_out w_bit a_bit : ℚ,
        model_bops [QOp.conv k c_in c_out h_out w_out w_bit a_bit]
          = c_out * c_in * k ^ 2 * h_out * w_out * a_bit * w_bit / 2 ^ 30)
    ∧ (∀ in_features out_features w_bit a_bit : ℚ,
        model_bops [QOp.linear in_features out_features w_bit a_bit]
          = in_features * out_features * a_bit * w_bit / 2 ^ 30)
    ∧ model_bops [QOp.conv 3 16 32 14 14 4 8]
        = 32 * 16 * 9 * 196 * 8 * 4 / 2 ^ 30 := by
  refine ⟨?_, ?_, ?_⟩
  · intro k c_in c_out h_out w_out w_bit a_bit
    simp only [model_bops, qop_bops, bops, List.foldl_cons, List.foldl_nil,
      zero_add]
    ring
  · intro in_features out_features w_bit a_bit
    simp only [model_bops, qop_bops, bops, List.foldl_cons, List.foldl_nil,
      zero_add]
    ring
  · norm_num [model_bops, qop_bops, bops]

/-- Claim C2 (code bug): the gradient to `x` passes through
`noise_quant.backward` unchanged and the surrogate redraw re-uses the
saved forward seed, but the redraw always happens on the default CPU
generator (`torch.randn(1)` with no device argument), not on the device of
`x`; with a generator family whose CPU and CUDA streams differ (as
PyTorch's do), the backward surrogate of a CUDA invocation is not the
forward dither multiplier. -/
theorem noise_backward_device_mismatch :
    (∀ (rng : Device → ℚ → ℚ) (c : NQContext) (g : List ℚ),
        (nq_backward rng c g).1 = g)
    ∧ (nq_forward rng_split Device.cuda 0 [1] 1).1 = [2]
    ∧ (nq_backward rng_split ⟨0⟩ [1]).2 = 0
    ∧ (nq_backward rng_split ⟨0⟩ [1]).2
        ≠ ((round (rng_split Device.cuda 0 / 2) : ℤ) : ℚ) := by
  exact ⟨fun rng c g => rfl, by with_unfolding_all decide,
    by with_unfolding_all decide, by with_unfolding_all decide⟩

/-- Claim C10: a forward invocation of `noise_quant` adds one shared
scalar dither `round(sample / 2) * step` to every element of the input;
the perturbation is identical across elements of the same invocation. -/
theorem noise_forward_shared_dither (randn1 : Device → ℚ → ℚ) (dev : Device)
    (rseed step : ℚ) (x : List ℚ) (i j : ℕ)
    (hi : i < x.length) (hj : j < x.length) :
    ((nq_forward randn1 dev rseed x step).1.getD i 0 - x.getD i 0
      = (nq_forward randn1 dev rseed x step).1.getD j 0 - x.getD j 0)
    ∧ (nq_forward randn1 dev rseed x step).1.getD i 0
      = x.getD i 0 + ((round (randn1 dev rseed / 2) : ℤ) : ℚ) * step := by
  have hgd : ∀ k : ℕ, k < x.length →
      (nq_forward randn1 dev rseed x step).1.getD k 0
        = x.getD k 0 + ((round (randn1 dev rseed / 2) : ℤ) : ℚ) * step := by
    intro k hk
    simp [nq_forward, List.getD_eq_getElem?_getD, List.getElem?_map,
      List.getElem?_eq_getElem hk]
  constructor
  · rw [hgd i hi, hgd j hj]
    ring
  · exact hgd i hi

/-- Witness for C10 on the tensor `[1, 2]` with a constant generator. -/
theorem noise_forward_shared_dither_witness :
    (0 < ([(1 : ℚ), 2]).length) ∧ (1 < ([(1 : ℚ), 2]).length)
    ∧ (((nq_forward rng_const Device.cpu 0 [(1 : ℚ), 2] 5).1.getD 0 0
          - ([(1 : ℚ), 2]).getD 0 0
        = (nq_forward rng_const Device.cpu 0 [(1 : ℚ), 2] 5).1.getD 1 0
          - ([(1 : ℚ), 2]).getD 1 0)
      ∧ (nq_forward rng_const Device.cpu 0 [(1 : ℚ), 2] 5).1.getD 0 0
        = ([(1 : ℚ), 2]).getD 0 0
          + ((round (rng_const Device.cpu 0 / 2) : ℤ) : ℚ) * 5) :=
  ⟨by decide, by decide,
    noise_forward_shared_dither rng_const Device.cpu 0 5 [(1 : ℚ), 2] 0 1
      (by decide) (by decide)⟩

/-- `round` is monotone on ℚ. -/
theorem round_mono_rat {u v : ℚ} (h : u ≤ v) : round u ≤ round v := by
  rw [round_eq, round_eq]
  exact Int.floor_le_floor (by linarith)

/-- The deterministic LSQ map `z ↦ round(clamp(z / A, 0, 1) * N) * (A / N)`
fixes its own outputs: its image consists of the representable levels
`m * A / N`, `0 ≤ m ≤ N`, and each of them is mapped to itself.  `A` is
the (positive) clipping scale and `N` the (integer, ≥ 1) level count. -/
theorem lsq_round_fix (A N : ℚ) (nz : ℤ) (hA : 0 < A) (hN : N = (nz : ℚ))
    (hnz : 1 ≤ nz) (z : ℚ) :
    hard_quant (clamp (hard_quant (clamp (z / A) 0 1 * N) * (A * N⁻¹) / A) 0 1 * N)
        * (A * N⁻¹)
      = hard_quant (clamp (z / A) 0 1 * N) * (A * N⁻¹) := by
  have hnz0 : (0 : ℤ) < nz := by omega
  have hN0 : (0 : ℚ) < N := by
    rw [hN]; exact_mod_cast hnz0
  have ht0 : 0 ≤ clamp (z / A) 0 1 := le_min (le_max_right _ _) zero_le_one
  have ht1 : clamp (z / A) 0 1 ≤ 1 := min_le_right _ _
  simp only [hard_quant]
  have hm0 : 0 ≤ round (clamp (z / A) 0 1 * N) := by
    have h := round_mono_rat (mul_nonneg ht0 hN0.le)
    simpa using h
  have hmN : round (clamp (z / A) 0 1 * N) ≤ nz := by
    have h1 : clamp (z / A) 0 1 * N ≤ (nz : ℚ) := by
      calc clamp (z / A) 0 1 * N ≤ 1 * N :=
            mul_le_mul_of_nonneg_right ht1 hN0.le
        _ = N := one_mul N
        _ = (nz : ℚ) := hN
    have h := round_mono_rat h1
    simpa [round_intCast] using h
  set m : ℤ := round (clamp (z / A) 0 1 * N) with hm
  have harg : (m : ℚ) * (A * N⁻¹) / A = (m : ℚ) / N := by
    field_simp
    ring
  rw [harg]
  have hdiv0 : (0 : ℚ) ≤ (m : ℚ) / N := by
    apply div_nonneg _ hN0.le
    exact_mod_cast hm0
  have hdiv1 : (m : ℚ) / N ≤ 1 := by
    rw [div_le_one hN0, hN]
    exact_mod_cast hmN
  have hclamp : clamp ((m : ℚ) / N) 0 1 = (m : ℚ) / N := by
    unfold clamp
    rw [max_eq_left hdiv0, min_eq_left hdiv1]
  rw [hclamp, div_mul_cancel₀ _ hN0.ne', round_intCast]

/-- Unfolding of `Quantizer._quant` in the deterministic case
(`is_training = False`): the branch condition is false whatever the
`requires_grad` flag, and the noise draw is unused. -/
theorem quant_det_eq (symm : Bool) (offset bitwidthVal alphaVal : ℚ)
    (rg : Bool) (noise x : ℚ) :
    _quant symm offset bitwidthVal alphaVal rg false noise x
      = (let b : ℤ := round bitwidthVal
         let o : ℚ := if symm then alphaVal else offset
         let a : ℚ := if symm then (2 - (2 : ℚ) ^ (-b + 1)) * alphaVal
           else alphaVal
         let n : ℚ := (2 : ℚ) ^ b - 1
         hard_quant (clamp ((x + o) / a) 0 1 * n) * (a * n⁻¹) - o) := by
  simp [_quant, use_stochastic]

/-- Claim C3: applying the deterministic (non-training) quantization policy
of `Quantizer._quant` twice yields the same tensor as applying it once —
quantization at inference is a projection onto its own level set.  The
hypotheses hold for every live quantizer: `alpha` is a softplus output
(positive), and the rounded effective bitwidth is at least 2 ≥ 1. -/
theorem quant_lsq_idempotent (symm : Bool) (offset bitwidthVal alphaVal : ℚ)
    (noiseA noiseB : ℚ) (rgA rgB : Bool) (x : ℚ)
    (halpha : 0 < alphaVal) (hb : 1 ≤ round bitwidthVal) :
    _quant symm offset bitwidthVal alphaVal rgA false noiseA
        (_quant symm offset bitwidthVal alphaVal rgB false noiseB x)
      = _quant symm offset bitwidthVal alphaVal rgB false noiseB x := by
  simp only [quant_det_eq]
  set b : ℤ := round bitwidthVal with hbdef
  set O : ℚ := if symm then alphaVal else offset with hO
  set A : ℚ := if symm then (2 - (2 : ℚ) ^ (-b + 1)) * alphaVal else alphaVal
    with hA
  set N : ℚ := (2 : ℚ) ^ b - 1 with hN
  have hApos : 0 < A := by
    rw [hA]
    cases symm
    · simpa using halpha
    · have h2 : (2 : ℚ) ^ (-b + 1) ≤ 1 :=
        zpow_le_one_of_nonpos₀ (by norm_num) (by omega)
      have h2pos : (0 : ℚ) < (2 : ℚ) ^ (-b + 1) := by positivity
      simp only [if_true]
      nlinarith
  obtain ⟨k, hk, hk1⟩ : ∃ k : ℕ, b = (k : ℤ) ∧ 1 ≤ k :=
    ⟨b.toNat, (Int.toNat_of_nonneg (by omega)).symm, by omega⟩
  have hNz : N = ((2 ^ k - 1 : ℤ) : ℚ) := by
    rw [hN, hk, zpow_natCast]
    push_cast
    ring
  have hnz1 : (1 : ℤ) ≤ 2 ^ k - 1 := by
    have h2n : (2 : ℕ) ≤ 2 ^ k := by
      calc (2 : ℕ) = 2 ^ 1 := rfl
        _ ≤ 2 ^ k := Nat.pow_le_pow_right (by norm_num) hk1
    have h2 : (2 : ℤ) ≤ 2 ^ k := by exact_mod_cast h2n
    omega
  have hyO : hard_quant (clamp ((x + O) / A) 0 1 * N) * (A * N⁻¹) - O + O
      = hard_quant (clamp ((x + O) / A) 0 1 * N) * (A * N⁻¹) := by ring
  rw [hyO, lsq_round_fix A N (2 ^ k - 1) hApos hNz hnz1 (x + O)]

/-- Witness for C3 at a concrete asymmetric quantizer state and input. -/
theorem quant_lsq_idempotent_witness :
    (0 < (1 : ℚ)) ∧ (1 ≤ round (2 : ℚ))
    ∧ _quant false 0 2 1 false false 0 (_quant false 0 2 1 false false 0 (1 / 3))
      = _quant false 0 2 1 false false 0 (1 / 3) :=
  ⟨by norm_num, by norm_num [round_eq],
    quant_lsq_idempotent false 0 2 1 0 0 false false (1 / 3) (by norm_num)
      (by norm_num [round_eq])⟩

/-- Evaluation of one step of the group-count search once the candidate's
`group_err` result is known. -/
theorem search_step_eval (arr : List ℚ) (unit me : ℚ) (mg g : ℕ) (e : ℚ)
    (r : List ℚ) (h : group_err arr unit g = some (e, r)) :
    search_step arr unit (some (me, mg)) g
      = if me > e then some (e, g) else some (me, mg) := by
  simp [search_step, h]

/-- Claim C9 (amended): whenever every candidate group evaluation
`g ∈ {1,2,3,4}` succeeds and at least one mean absolute error is strictly
below the sentinel `100`, the calibration search selects the `g` of
minimum mean absolute error, ties broken towards the smaller `g`; when
every candidate error reaches the sentinel (or a group's target search
fails), the code instead aborts without selecting any `g`. -/
theorem calibration_search_selects_min (arr : List ℚ) (unit : ℚ)
    (e1 e2 e3 e4 : ℚ) (r1 r2 r3 r4 : List ℚ)
    (h1 : group_err arr unit 1 = some (e1, r1))
    (h2 : group_err arr unit 2 = some (e2, r2))
    (h3 : group_err arr unit 3 = some (e3, r3))
    (h4 : group_err arr unit 4 = some (e4, r4))
    (hlt : e1 < 100 ∨ e2 < 100 ∨ e3 < 100 ∨ e4 < 100) :
    (best_g arr unit = some 1 ∧ e1 ≤ e2 ∧ e1 ≤ e3 ∧ e1 ≤ e4)
    ∨ (best_g arr unit = some 2 ∧ e2 < e1 ∧ e2 ≤ e3 ∧ e2 ≤ e4)
    ∨ (best_g arr unit = some 3 ∧ e3 < e1 ∧ e3 < e2 ∧ e3 ≤ e4)
    ∨ (best_g arr unit = some 4 ∧ e4 < e1 ∧ e4 < e2 ∧ e4 < e3) := by
  have hbg : best_g arr unit
      = (search_step arr unit (search_step arr unit (search_step arr unit
          (search_step arr unit (some (100, 0)) 1) 2) 3) 4).map Prod.snd := rfl
  rw [hbg, search_step_eval arr unit 100 0 1 e1 r1 h1]
  by_cases a1 : (100 : ℚ) > e1
  · rw [if_pos a1, search_step_eval arr unit e1 1 2 e2 r2 h2]
    by_cases a2 : e1 > e2
    · rw [if_pos a2, search_step_eval arr unit e2 2 3 e3 r3 h3]
      by_cases a3 : e2 > e3
      · rw [if_pos a3, search_step_eval arr unit e3 3 4 e4 r4 h4]
        by_cases a4 : e3 > e4
        · rw [if_pos a4]
          exact Or.inr (Or.inr (Or.inr
            ⟨rfl, by linarith, by linarith, by linarith⟩))
        · rw [if_neg a4]
          exact Or.inr (Or.inr (Or.inl
            ⟨rfl, by linarith, by linarith, by linarith⟩))
      · rw [if_neg a3, search_step_eval arr unit e2 2 4 e4 r4 h4]
        by_cases a4 : e2 > e4
        · rw [if_pos a4]
          exact Or.inr (Or.inr (Or.inr
            ⟨rfl, by linarith, by linarith, by linarith⟩))
        · rw [if_neg a4]
          exact Or.inr (Or.inl ⟨rfl, by linarith, by linarith, by linarith⟩)
    · rw [if_neg a2, search_step_eval arr unit e1 1 3 e3 r3 h3]
      by_cases a3 : e1 > e3
      · rw [if_pos a3, search_step_eval arr unit e3 3 4 e4 r4 h4]
        by_cases a4 : e3 > e4
        · rw [if_pos a4]
          exact Or.inr (Or.inr (Or.inr
            ⟨rfl, by linarith, by linarith, by linarith⟩))
        · rw [if_neg a4]
          exact Or.inr (Or.inr (Or.inl
            ⟨rfl, by linarith, by linarith, by linarith⟩))
      · rw [if_neg a3, search_step_eval arr unit e1 1 4 e4 r4 h4]
        by_cases a4 : e1 > e4
        · rw [if_pos a4]
          exact Or.inr (Or.inr (Or.inr
            ⟨rfl, by linarith, by linarith, by linarith⟩))
        · rw [if_neg a4]
          exact Or.inl ⟨rfl, by linarith, by linarith, by linarith⟩
  · rw [if_neg a1, search_step_eval arr unit 100 0 2 e2 r2 h2]
    by_cases a2 : (100 : ℚ) > e2
    · rw [if_pos a2, search_step_eval arr unit e2 2 3 e3 r3 h3]
      by_cases a3 : e2 > e3
      · rw [if_pos a3, search_step_eval arr unit e3 3 4 e4 r4 h4]
        by_cases a4 : e3 > e4
        · rw [if_pos a4]
          exact Or.inr (Or.inr (Or.inr
            ⟨rfl, by linarith, by linarith, by linarith⟩))
        · rw [if_neg a4]
          exact Or.inr (Or.inr (Or.inl
            ⟨rfl, by linarith, by linarith, by linarith⟩))
      · rw [if_neg a3, search_step_eval arr unit e2 2 4 e4 r4 h4]
        by_cases a4 : e2 > e4
        · rw [if_pos a4]
          exact Or.inr (Or.inr (Or.inr
            ⟨rfl, by linarith, by linarith, by linarith⟩))
        · rw [if_neg a4]
          exact Or.inr (Or.inl ⟨rfl, by linarith, by linarith, by linarith⟩)
    · rw [if_neg a2, search_step_eval arr unit 100 0 3 e3 r3 h3]
      by_cases a3 : (100 : ℚ) > e3
      · rw [if_pos a3, search_step_eval arr unit e3 3 4 e4 r4 h4]
        by_cases a4 : e3 > e4
        · rw [if_pos a4]
          exact Or.inr (Or.inr (Or.inr
            ⟨rfl, by linarith, by linarith, by linarith⟩))
        · rw [if_neg a4]
          exact Or.inr (Or.inr (Or.inl
            ⟨rfl, by linarith, by linarith, by linarith⟩))
      · rw [if_neg a3, search_step_eval arr unit 100 0 4 e4 r4 h4]
        by_cases a4 : (100 : ℚ) > e4
        · rw [if_pos a4]
          exact Or.inr (Or.inr (Or.inr
            ⟨rfl, by linarith, by linarith, by linarith⟩))
        · rw [if_neg a4]
          rcases hlt with h | h | h | h <;> linarith

/-- Claim C9 counterexample: on the channel minima `[1000,1000,1000,1000]`
with offset unit `1`, the claim's own mean-absolute-error objective equals
`996` for every group count (so its minimum exists, first attained at
`g = 1`), yet the code selects no `g` at all: every candidate error
reaches the `optimal_i` sentinel `100` and the calibration aborts through
the error exit. -/
theorem calibration_search_abort_counterexample :
    best_g [1000, 1000, 1000, 1000] 1 = none
    ∧ spec_group_mae [1000, 1000, 1000, 1000] 1 1 = 996
    ∧ spec_group_mae [1000, 1000, 1000, 1000] 1 2 = 996
    ∧ spec_group_mae [1000, 1000, 1000, 1000] 1 3 = 996
    ∧ spec_group_mae [1000, 1000, 1000, 1000] 1 4 = 996 := by
  refine ⟨?_, ?_, ?_, ?_, ?_⟩ <;> with_unfolding_all decide

/-- Witness for C9 (amended) on the minima `[0,0,0,0]` with unit `1`. -/
theorem calibration_search_selects_min_witness :
    group_err [0, 0, 0, 0] 1 1 = some (0, [0, 0, 0, 0])
    ∧ ((best_g [0, 0, 0, 0] 1 = some 1
          ∧ (0 : ℚ) ≤ 0 ∧ (0 : ℚ) ≤ 0 ∧ (0 : ℚ) ≤ 0)
      ∨ (best_g [0, 0, 0, 0] 1 = some 2
          ∧ (0 : ℚ) < 0 ∧ (0 : ℚ) ≤ 0 ∧ (0 : ℚ) ≤ 0)
      ∨ (best_g [0, 0, 0, 0] 1 = some 3
          ∧ (0 : ℚ) < 0 ∧ (0 : ℚ) < 0 ∧ (0 : ℚ) ≤ 0)
      ∨ (best_g [0, 0, 0, 0] 1 = some 4
          ∧ (0 : ℚ) < 0 ∧ (0 : ℚ) < 0 ∧ (0 : ℚ) < 0)) :=
  ⟨by with_unfolding_all decide,
    calibration_search_selects_min [0, 0, 0, 0] 1 0 0 0 0 [0, 0, 0, 0]
      [0, 0, 0, 0] [0, 0, 0, 0] [0, 0, 0, 0]
      (by with_unfolding_all decide) (by with_unfolding_all decide)
      (by with_unfolding_all decide) (by with_unfolding_all decide)
      (Or.inl (by norm_num))⟩
